import Mathlib

/-!
Shallow embedding of the prezerolog structured-logging package, together
with theorems settling the behavioural claims about it.

The embedding follows the Go source: heterogeneous `interface` arguments
to a logging call become the closed variant type `LogArg` (the type switch
in `processLogArgs` covers exactly these shapes: string, error, field map,
`fmt.Stringer`, nil, struct with exported fields, other scalar); Go maps
written by successive assignments are represented as association lists in
write order, looked up last-occurrence-wins; zerolog events, which are
append-only byte buffers, are represented as key/value lists in append
order; the lumberjack rotation collaborator is modelled from its
documented behaviour (size-triggered internal rotation reopens the same
file name); fallible operations return an `Option` error alongside the
state.
-/

namespace PreZeroLog

/-- Values carried in log fields (the image of Go `interface` values that
reach a field map in this development). -/
inductive GoValue where
  | str : String → GoValue
  | int : Int → GoValue
  | bool : Bool → GoValue
  deriving DecidableEq, Repr

/-- FatalError mirrors the Go struct with exported fields Message, Code, File. -/
structure FatalError where
  message : String
  code : Int
  file : String
  deriving DecidableEq, Repr

/-- LogArg is the closed variant of argument shapes distinguished by the
type switch in processLogArgs.  A Go `error` is identified by its message;
a `fmt.Stringer` by the result of its String method; a struct argument by
its list of exported field names and values.  `FatalError` is kept as its
own constructor because `Logger.Fatal` type-asserts on it; in the type
switch it falls to the `default` branch as a plain struct. -/
inductive LogArg where
  | str : String → LogArg
  | err : String → LogArg
  | fieldMap : List (String × GoValue) → LogArg
  | stringer : String → LogArg
  | fatalErr : FatalError → LogArg
  | structArg : List (String × GoValue) → LogArg
  | nilArg : LogArg
  | other : GoValue → LogArg
  deriving DecidableEq, Repr

/-- Association-list lookup with last-write-wins semantics: the value of
the latest binding of the key, as in a Go map built by assignments. -/
def lookupLast (m : List (String × GoValue)) (k : String) : Option GoValue :=
  (m.reverse.find? (fun p => p.1 == k)).map (fun p => p.2)

/-- Association-list lookup taking the first binding of the key (the
first occurrence in an emitted record). -/
def lookupFirst (m : List (String × GoValue)) (k : String) : Option GoValue :=
  (m.find? (fun p => p.1 == k)).map (fun p => p.2)

/-- mergeMap copies every key of source into target (Go: for k, v := range
source, target k = v).  In the write-order representation this appends the
source bindings after the target ones. -/
def mergeMap (target source : List (String × GoValue)) : List (String × GoValue) :=
  target ++ source

/-- Result triple of processLogArgs: message, fields, errVal. -/
structure LogParts where
  message : String
  fields : List (String × GoValue)
  errVal : Option String
  deriving DecidableEq, Repr

/-- One iteration of the argument loop of processLogArgs: the type switch
over the current argument, updating the (message, fields, errVal) state.
The `fatalErr` and `structArg` cases are the `default` branch calling
mergeStruct (exported fields copied by name; FatalError contributes its
Message, Code and File fields); `nilArg` is mergeStruct's nil guard;
`other` is mergeStruct's non-struct fallback storing under key value. -/
def processStep (st : LogParts) (arg : LogArg) : LogParts :=
  match arg with
  | .str v => { st with message := v }
  | .err e => { st with errVal := some e }
  | .fieldMap m => { st with fields := mergeMap st.fields m }
  | .stringer v =>
      if st.message = "" then { st with message := v }
      else { st with fields := st.fields ++ [("value", GoValue.str v)] }
  | .fatalErr fe =>
      { st with fields := st.fields ++
          [("Message", GoValue.str fe.message), ("Code", GoValue.int fe.code),
           ("File", GoValue.str fe.file)] }
  | .structArg fs => { st with fields := st.fields ++ fs }
  | .nilArg => st
  | .other v => { st with fields := st.fields ++ [("value", v)] }

/-- processLogArgs folds the type switch over the argument list starting
from an empty message, empty field map and nil error. -/
def processLogArgs (args : List LogArg) : LogParts :=
  args.foldl processStep ⟨"", [], none⟩

/-- lastString returns the last string-typed argument of the list, if any. -/
def lastString : List LogArg → Option String
  | [] => none
  | a :: rest =>
      match lastString rest with
      | some v => some v
      | none => match a with | .str v => some v | _ => none

/-- lastError returns the message of the last error-typed argument, if any. -/
def lastError : List LogArg → Option String
  | [] => none
  | a :: rest =>
      match lastError rest with
      | some e => some e
      | none => match a with | .err e => some e | _ => none

/-- isStringer recognises arguments handled by the `fmt.Stringer` case. -/
def isStringer (a : LogArg) : Bool :=
  match a with | .stringer _ => true | _ => false

/-- Level is zerolog's severity scale, an integer: trace is -1, then
debug 0, info 1, warn 2, error 3, fatal 4, panic 5, NoLevel 6, Disabled 7.
Comparisons in the source are ordinary integer comparisons. -/
abbrev Level := Int

def traceLevel : Level := -1
def debugLevel : Level := 0
def infoLevel : Level := 1
def warnLevel : Level := 2
def errorLevel : Level := 3
def fatalLevel : Level := 4
def panicLevel : Level := 5

/-- levelDest is a destination: a writer (identified by a number; `none`
models a nil writer, which the fan-out loop skips) and a minimum level. -/
structure LevelDest where
  w : Option Nat
  min : Level
  deriving DecidableEq, Repr

/-- MWState records, in attempt order, which writer received which bytes
(byte payloads are modelled as lists of bytes). -/
structure MWState where
  received : List (Nat × List Nat)
  deriving DecidableEq, Repr

/-- WriteAttempt performs one destination write of the loop body: the
bytes are handed to the writer, and the pair the writer returns — an
oracle `wfail` gives the error, if any — is discarded on the spot, as in
the source line assigning both results to blank identifiers. -/
def writeAttempt (wfail : Nat → Option String) (p : List Nat) (st : MWState)
    (wid : Nat) : MWState :=
  let res := (p.length, wfail wid)
  let st' : MWState := ⟨st.received ++ [(wid, p)]⟩
  match res with
  | (_, _) => st'

/-- mlwStep is the loop body of multiLevelWriter.Write: write to the
destination when its writer is non-nil, skip it otherwise. -/
def mlwStep (wfail : Nat → Option String) (p : List Nat) (s : MWState)
    (d : LevelDest) : MWState :=
  match d.w with
  | some wid => writeAttempt wfail p s wid
  | none => s

/-- mlwLevelStep is the loop body of multiLevelWriter.WriteLevel: write to
the destination when its writer is non-nil and the record level is at
least the destination minimum. -/
def mlwLevelStep (wfail : Nat → Option String) (level : Level) (p : List Nat)
    (s : MWState) (d : LevelDest) : MWState :=
  match d.w with
  | some wid => if level ≥ d.min then writeAttempt wfail p s wid else s
  | none => s

/-- mlwWrite is multiLevelWriter.Write: loop over all destinations, write
to every non-nil writer, ignore their results, then return the full length
and a nil error. -/
def mlwWrite (wfail : Nat → Option String) (dests : List LevelDest)
    (p : List Nat) (st : MWState) : MWState × Nat × Option String :=
  (dests.foldl (mlwStep wfail p) st, p.length, none)

/-- mlwWriteLevel is multiLevelWriter.WriteLevel: as mlwWrite, but gated
per destination by the record level. -/
def mlwWriteLevel (wfail : Nat → Option String) (dests : List LevelDest)
    (level : Level) (p : List Nat) (st : MWState) : MWState × Nat × Option String :=
  (dests.foldl (mlwLevelStep wfail level p) st, p.length, none)

/-- minStep is the loop body of the gate-level computation of
configureZerolog: keep the lower of the running minimum and the
destination's minimum. -/
def minStep (m : Level) (d : LevelDest) : Level :=
  if d.min < m then d.min else m

/-- gateLevel is the minimum computation of configureZerolog: start from
the first destination's minimum and lower it over the remaining ones.
The source guarantees at least one destination via the stdout fallback, so
the list is taken as a head and a tail. -/
def gateLevel (d0 : LevelDest) (rest : List LevelDest) : Level :=
  rest.foldl minStep d0.min

/-- levelString renders a level the way zerolog writes the level field. -/
def levelString (l : Level) : String :=
  if l = traceLevel then "trace"
  else if l = debugLevel then "debug"
  else if l = infoLevel then "info"
  else if l = warnLevel then "warn"
  else if l = errorLevel then "error"
  else if l = fatalLevel then "fatal"
  else if l = panicLevel then "panic"
  else ""

/-- optEntry emits a single key/value entry when the optional value is
present and nothing otherwise. -/
def optEntry (k : String) (v : Option String) : List (String × GoValue) :=
  match v with
  | some s => [(k, GoValue.str s)]
  | none => []

/-- baseFields is what the configured base logger contributes to every
event at creation: the level written by WithLevel, then the context
installed by configureZerolog — timestamp, service, env.  The timestamp
string is a parameter (the clock is external). -/
def baseFields (svc env tm : String) (level : Level) : List (String × GoValue) :=
  [("level", GoValue.str (levelString level)), ("time", GoValue.str tm),
   ("service", GoValue.str svc), ("env", GoValue.str env)]

/-- logEventRecord assembles the record emitted by Logger.logEvent as the
event buffer's key/value sequence in append order: base fields, then the
caller when userCaller returned one, then the normalized user fields, then
the error under key err when present, then the message under key msg when
non-empty (Msg appends it last; Send appends none). -/
def logEventRecord (svc env tm : String) (level : Level)
    (caller : Option String) (args : List LogArg) : List (String × GoValue) :=
  baseFields svc env tm level
    ++ optEntry "caller" caller
    ++ (processLogArgs args).fields
    ++ optEntry "err" ((processLogArgs args).errVal)
    ++ (if (processLogArgs args).message = "" then []
        else [("msg", GoValue.str (processLogArgs args).message)])

/-- GoAny is a value stored in a context: a string or something of another
dynamic type (on which the string type assertion yields the empty string). -/
inductive GoAny where
  | str : String → GoAny
  | nonString : GoAny
  deriving DecidableEq, Repr

/-- Ctx carries the three correlation identifiers a context may hold under
the package's context keys. -/
structure Ctx where
  requestID : Option GoAny
  traceID : Option GoAny
  spanID : Option GoAny
  deriving DecidableEq, Repr

/-- assertString is the Go pattern `v, underscore := x.(string)`: the string
itself when the value is a string, and the empty string when the value is
absent or of another type. -/
def assertString (x : Option GoAny) : String :=
  match x with
  | some (.str s) => s
  | _ => ""

/-- correlationFields is the prefix logEventCtx adds to the child logger's
context: each identifier is appended exactly when its asserted string is
non-empty, in the source order request_id, trace_id, span_id. -/
def correlationFields (ctx : Ctx) : List (String × GoValue) :=
  (if assertString ctx.requestID ≠ "" then
      [("request_id", GoValue.str (assertString ctx.requestID))] else [])
  ++ (if assertString ctx.traceID ≠ "" then
      [("trace_id", GoValue.str (assertString ctx.traceID))] else [])
  ++ (if assertString ctx.spanID ≠ "" then
      [("span_id", GoValue.str (assertString ctx.spanID))] else [])

/-- logEventCtxRecord assembles the record emitted by Logger.logEventCtx:
as logEventRecord, with the correlation fields sitting in the child
logger's context right after the base fields. -/
def logEventCtxRecord (svc env tm : String) (ctx : Ctx) (level : Level)
    (caller : Option String) (args : List LogArg) : List (String × GoValue) :=
  baseFields svc env tm level
    ++ correlationFields ctx
    ++ optEntry "caller" caller
    ++ (processLogArgs args).fields
    ++ optEntry "err" ((processLogArgs args).errVal)
    ++ (if (processLogArgs args).message = "" then []
        else [("msg", GoValue.str (processLogArgs args).message)])

/-- fatalExitCode is the exit-code scan at the end of Logger.Fatal: start
from ExitGeneral (1) and take the Code of the first FatalError argument
whose Code is non-zero, stopping there. -/
def fatalExitCode : List LogArg → Int
  | [] => 1
  | a :: rest =>
      match a with
      | .fatalErr fe => if fe.code ≠ 0 then fe.code else fatalExitCode rest
      | _ => fatalExitCode rest

/-- fatalCodeArgs is the argument list FatalCode hands to Fatal: the
caller's arguments with a FatalError carrying the code appended. -/
def fatalCodeArgs (code : Int) (args : List LogArg) : List LogArg :=
  args ++ [LogArg.fatalErr ⟨"", code, ""⟩]

-- (the exit-code scan is stated directly on fatalExitCode below)

/-- megabyte scales the MaxSize configuration, which is in megabytes. -/
def megabyte : Nat := 1048576

/-- LumberjackState models the external rotation collaborator (lumberjack),
from its documented contract: a configured file name, the size limit in
megabytes, the byte count of the current file, and how many internal
rotations it has performed.  Its internal rotation renames the current
file to a timestamped backup and reopens a file with the same configured
name — the Filename field is never changed by the collaborator itself. -/
structure LumberjackState where
  filename : String
  maxSizeMB : Nat
  size : Nat
  rotations : Nat
  deriving DecidableEq, Repr

/-- ljMax is the byte threshold corresponding to the configured megabyte
limit. -/
def ljMax (st : LumberjackState) : Nat := st.maxSizeMB * megabyte

/-- lumberjackWrite models the collaborator's Write: a write longer than
the whole limit is refused; a write that would push the current file past
the limit first performs an internal rotation (new file, same name, size
reset) and then lands in the fresh file; otherwise it appends. -/
def lumberjackWrite (st : LumberjackState) (n : Nat) :
    LumberjackState × Nat × Option String :=
  if n > ljMax st then (st, 0, some "write length exceeds maximum file size")
  else if st.size + n > ljMax st then
    ({ st with size := n, rotations := st.rotations + 1 }, n, none)
  else ({ st with size := st.size + n }, n, none)

/-- RotatingLoggerState is the wrapper state of RotatingLogger: the
embedded lumberjack collaborator plus the repository-owned base name and
rotation index (the mutex serialising access is elided; every operation
here is the body of one critical section). -/
structure RotatingLoggerState where
  lj : LumberjackState
  baseName : String
  index : Nat
  deriving DecidableEq, Repr

/-- rlWrite is RotatingLogger.Write: take the lock and delegate the bytes
to the embedded collaborator, touching nothing else. -/
def rlWrite (st : RotatingLoggerState) (n : Nat) :
    RotatingLoggerState × Nat × Option String :=
  let r := lumberjackWrite st.lj n
  ({ st with lj := r.1 }, r.2.1, r.2.2)

/-- pad2 prints a natural number the way the source's percent-zero-two-d
format verb does for the rotation index. -/
def pad2 (n : Nat) : String :=
  if n < 10 then "0" ++ toString n else toString n

/-- dirOf is filepath.Dir restricted to slash paths: everything before the
last separator, or a dot when there is none. -/
def dirOf (p : String) : String :=
  match (p.toList.reverse.dropWhile (fun c => c ≠ '/')) with
  | [] => "."
  | _ :: rest => String.mk rest.reverse

/-- joinPath is filepath.Join for a directory and a file name. -/
def joinPath (d f : String) : String := d ++ "/" ++ f

/-- rotatedName builds the file name the source formats on rotation: base
name, underscore, two-digit index, dot log. -/
def rotatedName (base : String) (idx : Nat) : String :=
  base ++ "_" ++ pad2 idx ++ ".log"

/-- rlRotate is RotatingLogger.Rotate: call the embedded collaborator's
Rotate — whose outcome is the `ljErr` parameter, since it is external I/O
— and on error return it at once, changing nothing; on success increment
the index and point the file name at the freshly numbered file in the same
directory. -/
def rlRotate (ljErr : Option String) (st : RotatingLoggerState) :
    Option String × RotatingLoggerState :=
  match ljErr with
  | some e => (some e, st)
  | none =>
    let ljRotated : LumberjackState :=
      { st.lj with size := 0, rotations := st.lj.rotations + 1 }
    let idx := st.index + 1
    (none,
     { st with index := idx,
               lj := { ljRotated with
                        filename := joinPath (dirOf st.lj.filename)
                                      (rotatedName st.baseName idx) } })

/-- InitConfig is the configuration InitLogging resolves from the
environment before building anything (parsing is out of scope): whether
the file and console destinations are enabled and their levels. -/
structure InitConfig where
  fileEnabled : Bool
  consoleEnabled : Bool
  fileLevel : Level
  consoleLevel : Level
  deriving DecidableEq, Repr

/-- LoggerHandle is the value stored in the AppLogger singleton: the
identifier of the rotating sink it owns, if file output is enabled, and
the console flag. -/
structure LoggerHandle where
  rotatorId : Option Nat
  consoleOut : Bool
  deriving DecidableEq, Repr

/-- GlobalState is the process-wide state the initialization code
mutates: the AppLogger singleton and the list of rotating sinks created so
far, identified by creation order (nextSinkId is the next fresh id). -/
structure GlobalState where
  appLogger : Option LoggerHandle
  nextSinkId : Nat
  sinksCreated : List Nat
  deriving DecidableEq, Repr

/-- initLogging is InitLogging: unconditionally build a new rotating sink
when file output is enabled, configure the destinations, and overwrite the
AppLogger singleton with a fresh handle.  No check of the existing
singleton appears in the source. -/
def initLogging (cfg : InitConfig) (s : GlobalState) : GlobalState :=
  if cfg.fileEnabled then
    { appLogger := some ⟨some s.nextSinkId, cfg.consoleEnabled⟩,
      nextSinkId := s.nextSinkId + 1,
      sinksCreated := s.sinksCreated ++ [s.nextSinkId] }
  else
    { appLogger := some ⟨none, cfg.consoleEnabled⟩,
      nextSinkId := s.nextSinkId,
      sinksCreated := s.sinksCreated }

/-- ensure is the lazy accessor: initialize only when the singleton is
still nil, then hand back the singleton. -/
def ensure (cfg : InitConfig) (s : GlobalState) : GlobalState :=
  match s.appLogger with
  | none => initLogging cfg s
  | some _ => s

/-- lastMapWith picks the last map of the list, in argument order, that
contains a binding for the key. -/
def lastMapWith : List (List (String × GoValue)) → String →
    Option (List (String × GoValue))
  | [], _ => none
  | m :: ms, k =>
      match lastMapWith ms k with
      | some m2 => some m2
      | none => if (lookupLast m k).isSome then some m else none

/-! Theorems -/

theorem foldl_errVal (args : List LogArg) : ∀ st : LogParts,
    (List.foldl processStep st args).errVal = Option.or (lastError args) st.errVal := by
  induction args with
  | nil => intro st; rfl
  | cons a rest ih =>
    intro st
    have h : (List.foldl processStep st (a :: rest)).errVal =
        Option.or (lastError rest) (processStep st a).errVal := ih (processStep st a)
    rw [List.foldl_cons] at *
    rw [h]
    cases hl : lastError rest with
    | some e => simp [lastError, hl, Option.or]
    | none =>
        cases a <;> simp [lastError, hl, Option.or, processStep, apply_ite]

theorem foldl_message (args : List LogArg)
    (hns : ∀ a ∈ args, isStringer a = false) : ∀ st : LogParts,
    (List.foldl processStep st args).message = (lastString args).getD st.message := by
  induction args with
  | nil => intro st; rfl
  | cons a rest ih =>
    intro st
    have hrest : ∀ a ∈ rest, isStringer a = false :=
      fun b hb => hns b (List.mem_cons_of_mem _ hb)
    have h : (List.foldl processStep st (a :: rest)).message =
        (lastString rest).getD (processStep st a).message := ih hrest (processStep st a)
    rw [List.foldl_cons] at *
    rw [h]
    cases hl : lastString rest with
    | some v => simp [lastString, hl]
    | none =>
        cases a with
        | stringer v => exact absurd (hns _ (List.mem_cons_self _ _)) (by simp [isStringer])
        | str v => simp [lastString, hl, processStep]
        | err e => simp [lastString, hl, processStep]
        | fieldMap m => simp [lastString, hl, processStep]
        | fatalErr fe => simp [lastString, hl, processStep]
        | structArg fs => simp [lastString, hl, processStep]
        | nilArg => simp [lastString, hl, processStep]
        | other v => simp [lastString, hl, processStep]

/-- C1 counterexample: a lone Stringer argument yields a non-empty
message although the sequence has no string argument at all, so the
message is not the last string argument or empty. -/
theorem processLogArgs_stringer_cex :
    ¬ ((processLogArgs [LogArg.stringer "x"]).message =
        (lastString [LogArg.stringer "x"]).getD "") := by
  decide

/-- C1 amended: processLogArgs is total over the closed set of argument
shapes (the type switch has a default, so the Lean model is a total
function) and always selects exactly one message and one error value; the
error is the last error-typed argument or null, and the message is the
last string argument (or empty) provided no Stringer argument occurs — a
Stringer encountered while the message is still empty also sets the
message. -/
theorem processLogArgs_total_spec (args : List LogArg) :
    (processLogArgs args).errVal = lastError args ∧
    ((∀ a ∈ args, isStringer a = false) →
      (processLogArgs args).message = (lastString args).getD "") := by
  constructor
  · have h := foldl_errVal args ⟨"", [], none⟩
    rw [processLogArgs, h]
    cases hl : lastError args <;> simp [Option.or]
  · intro hns
    exact foldl_message args hns ⟨"", [], none⟩

/-- C1 witness: on a Stringer-free sequence mixing maps, strings and
errors, the message is the last string and the error the last error. -/
theorem processLogArgs_total_spec_witness :
    (∀ a ∈ [LogArg.fieldMap [("user", GoValue.str "alice")], LogArg.str "a",
            LogArg.err "e1", LogArg.str "b", LogArg.err "e2"],
        isStringer a = false) ∧
    (processLogArgs [LogArg.fieldMap [("user", GoValue.str "alice")], LogArg.str "a",
        LogArg.err "e1", LogArg.str "b", LogArg.err "e2"]).errVal = some "e2" ∧
    (processLogArgs [LogArg.fieldMap [("user", GoValue.str "alice")], LogArg.str "a",
        LogArg.err "e1", LogArg.str "b", LogArg.err "e2"]).message = "b" := by
  have h := processLogArgs_total_spec
    [LogArg.fieldMap [("user", GoValue.str "alice")], LogArg.str "a",
     LogArg.err "e1", LogArg.str "b", LogArg.err "e2"]
  refine ⟨by decide, ?_, ?_⟩
  · rw [h.1]; rfl
  · rw [h.2 (by decide)]; rfl

theorem foldl_fields_maps (ms : List (List (String × GoValue))) : ∀ st : LogParts,
    (List.foldl processStep st (ms.map LogArg.fieldMap)).fields =
      st.fields ++ ms.flatten := by
  induction ms with
  | nil => intro st; simp
  | cons m ms ih =>
    intro st
    rw [List.map_cons, List.foldl_cons]
    rw [ih (processStep st (LogArg.fieldMap m))]
    simp [processStep, mergeMap, List.flatten_cons, List.append_assoc]

theorem lookupLast_append (a b : List (String × GoValue)) (k : String) :
    lookupLast (a ++ b) k = Option.or (lookupLast b k) (lookupLast a k) := by
  unfold lookupLast
  rw [List.reverse_append, List.find?_append]
  cases h : (b.reverse.find? fun p => p.1 == k) <;> simp [Option.or, h]

theorem lastMapWith_isSome (ms : List (List (String × GoValue))) (k : String)
    (m : List (String × GoValue)) (h : lastMapWith ms k = some m) :
    (lookupLast m k).isSome := by
  induction ms with
  | nil => cases h
  | cons m0 ms ih =>
    rw [lastMapWith] at h
    cases hl : lastMapWith ms k with
    | some m2 =>
        rw [hl] at h
        cases h
        exact ih hl
    | none =>
        rw [hl] at h
        by_cases hs : (lookupLast m0 k).isSome
        · rw [if_pos hs] at h
          cases h
          exact hs
        · rw [if_neg hs] at h
          cases h

theorem flatten_lookupLast (ms : List (List (String × GoValue))) (k : String) :
    lookupLast ms.flatten k =
      match lastMapWith ms k with
      | some m => lookupLast m k
      | none => none := by
  induction ms with
  | nil => rfl
  | cons m ms ih =>
    rw [List.flatten_cons, lookupLast_append, ih, lastMapWith]
    cases hl : lastMapWith ms k with
    | some m2 =>
        have hs := lastMapWith_isSome ms k m2 hl
        cases hv : lookupLast m2 k with
        | some v => simp [Option.or, hv]
        | none => rw [hv] at hs; cases hs
    | none =>
        by_cases hs : (lookupLast m k).isSome
        · rw [if_pos hs]
          simp [Option.or]
        · rw [if_neg hs]
          simp only [Option.or]
          cases hv : lookupLast m k with
          | some v => rw [hv] at hs; simp at hs
          | none => rfl

/-- C9: when a sequence of map arguments is normalized, the resulting
field value of a key bound in several maps is the value from the last map
in argument order containing that key. -/
theorem merge_maps_last_wins (ms : List (List (String × GoValue))) (k : String)
    (m : List (String × GoValue)) (h : lastMapWith ms k = some m) :
    lookupLast (processLogArgs (ms.map LogArg.fieldMap)).fields k =
      lookupLast m k := by
  have hf := foldl_fields_maps ms ⟨"", [], none⟩
  rw [processLogArgs, hf]
  simp only [List.nil_append]
  rw [flatten_lookupLast, h]

/-- C9 witness: with two maps both binding the key k, the normalized
fields hold the second map's value for k. -/
theorem merge_maps_last_wins_witness :
    lastMapWith [[("k", GoValue.str "v1"), ("u", GoValue.str "u1")],
        [("k", GoValue.str "v2")]] "k" = some [("k", GoValue.str "v2")] ∧
    lookupLast (processLogArgs
        [LogArg.fieldMap [("k", GoValue.str "v1"), ("u", GoValue.str "u1")],
         LogArg.fieldMap [("k", GoValue.str "v2")]]).fields "k" =
      lookupLast [("k", GoValue.str "v2")] "k" := by
  constructor
  · decide
  · exact merge_maps_last_wins
      [[("k", GoValue.str "v1"), ("u", GoValue.str "u1")], [("k", GoValue.str "v2")]]
      "k" [("k", GoValue.str "v2")] (by decide)

theorem writeAttempt_received (wfail : Nat → Option String) (p : List Nat)
    (st : MWState) (wid : Nat) :
    (writeAttempt wfail p st wid).received = st.received ++ [(wid, p)] := rfl

theorem foldl_write_received (wfail : Nat → Option String) (p : List Nat)
    (dests : List LevelDest) : ∀ (st : MWState) (e : Nat × List Nat),
    (e ∈ (List.foldl (mlwStep wfail p) st dests).received ↔
      e ∈ st.received ∨ ∃ d ∈ dests, d.w = some e.1 ∧ e.2 = p) := by
  induction dests with
  | nil => intro st e; simp
  | cons d dests ih =>
    intro st e
    rw [List.foldl_cons, ih]
    cases hw : d.w with
    | none =>
        simp only [mlwStep, hw, List.mem_cons]
        constructor
        · intro h
          rcases h with h | ⟨d2, hd2, h2⟩
          · exact Or.inl h
          · exact Or.inr ⟨d2, Or.inr hd2, h2⟩
        · intro h
          rcases h with h | ⟨d2, hd2, h2⟩
          · exact Or.inl h
          · rcases hd2 with rfl | hd2
            · rw [hw] at h2; cases h2.1
            · exact Or.inr ⟨d2, hd2, h2⟩
    | some wid =>
        simp only [mlwStep, hw, writeAttempt_received, List.mem_append,
          List.mem_singleton, List.mem_cons, List.mem_nil_iff, or_false]
        constructor
        · intro h
          rcases h with (h | rfl) | ⟨d2, hd2, h2⟩
          · exact Or.inl h
          · exact Or.inr ⟨d, Or.inl rfl, by simp [hw]⟩
          · exact Or.inr ⟨d2, Or.inr hd2, h2⟩
        · intro h
          rcases h with h | ⟨d2, hd2, h2⟩
          · exact Or.inl (Or.inl h)
          · rcases hd2 with rfl | hd2
            · rw [hw] at h2
              obtain ⟨h1, h2p⟩ := h2
              injection h1 with h1
              refine Or.inl (Or.inr ?_)
              rw [Prod.ext_iff]
              exact ⟨h1.symm, h2p⟩
            · exact Or.inr ⟨d2, hd2, h2⟩

theorem foldl_level_received (wfail : Nat → Option String) (level : Level)
    (p : List Nat) (dests : List LevelDest) : ∀ (st : MWState) (e : Nat × List Nat),
    (e ∈ (List.foldl (mlwLevelStep wfail level p) st dests).received ↔
      e ∈ st.received ∨ ∃ d ∈ dests, d.w = some e.1 ∧ level ≥ d.min ∧ e.2 = p) := by
  induction dests with
  | nil => intro st e; simp
  | cons d dests ih =>
    intro st e
    rw [List.foldl_cons, ih]
    cases hw : d.w with
    | none =>
        simp only [mlwLevelStep, hw, List.mem_cons]
        constructor
        · intro h
          rcases h with h | ⟨d2, hd2, h2⟩
          · exact Or.inl h
          · exact Or.inr ⟨d2, Or.inr hd2, h2⟩
        · intro h
          rcases h with h | ⟨d2, hd2, h2⟩
          · exact Or.inl h
          · rcases hd2 with rfl | hd2
            · rw [hw] at h2; cases h2.1
            · exact Or.inr ⟨d2, hd2, h2⟩
    | some wid =>
        by_cases hge : level ≥ d.min
        · simp only [mlwLevelStep, hw, if_pos hge, writeAttempt_received,
            List.mem_append, List.mem_singleton, List.mem_cons,
            List.mem_nil_iff, or_false]
          constructor
          · intro h
            rcases h with (h | rfl) | ⟨d2, hd2, h2⟩
            · exact Or.inl h
            · exact Or.inr ⟨d, Or.inl rfl, by simp [hw, hge]⟩
            · exact Or.inr ⟨d2, Or.inr hd2, h2⟩
          · intro h
            rcases h with h | ⟨d2, hd2, h2⟩
            · exact Or.inl (Or.inl h)
            · rcases hd2 with rfl | hd2
              · rw [hw] at h2
                obtain ⟨h1, _, h2p⟩ := h2
                injection h1 with h1
                refine Or.inl (Or.inr ?_)
                rw [Prod.ext_iff]
                exact ⟨h1.symm, h2p⟩
              · exact Or.inr ⟨d2, hd2, h2⟩
        · simp only [mlwLevelStep, hw, if_neg hge, List.mem_cons]
          constructor
          · intro h
            rcases h with h | ⟨d2, hd2, h2⟩
            · exact Or.inl h
            · exact Or.inr ⟨d2, Or.inr hd2, h2⟩
          · intro h
            rcases h with h | ⟨d2, hd2, h2⟩
            · exact Or.inl h
            · rcases hd2 with rfl | hd2
              · exact absurd h2.2.1 hge
              · exact Or.inr ⟨d2, hd2, h2⟩

theorem foldl_minStep_spec (l : List LevelDest) : ∀ acc : Level,
    List.foldl minStep acc l ≤ acc ∧
    (∀ d ∈ l, List.foldl minStep acc l ≤ d.min) ∧
    (List.foldl minStep acc l = acc ∨ ∃ d ∈ l, List.foldl minStep acc l = d.min) := by
  induction l with
  | nil => intro acc; simp
  | cons d l ih =>
    intro acc
    rw [List.foldl_cons]
    have ihd := ih (minStep acc d)
    have hstep_acc : minStep acc d ≤ acc := by
      unfold minStep
      split
      · exact le_of_lt (by assumption)
      · exact le_refl acc
    have hstep_d : minStep acc d ≤ d.min := by
      unfold minStep
      split
      · exact le_refl _
      · exact not_lt.mp (by assumption)
    refine ⟨le_trans ihd.1 hstep_acc, ?_, ?_⟩
    · intro d2 hd2
      rcases List.mem_cons.mp hd2 with rfl | hd2
      · exact le_trans ihd.1 hstep_d
      · exact ihd.2.1 d2 hd2
    · rcases ihd.2.2 with heq | ⟨d2, hd2, heq⟩
      · rw [heq]
        unfold minStep
        split
        · exact Or.inr ⟨d, List.mem_cons_self _ _, rfl⟩
        · exact Or.inl rfl
      · exact Or.inr ⟨d2, List.mem_cons_of_mem _ hd2, heq⟩

/-- C2: WriteLevel hands the record bytes to exactly the destinations
whose minimum level is at most the record level; the level-less Write
hands them to every destination; and the gate level computed for the base
logger is the minimum over all destination thresholds (a lower bound that
is attained). -/
theorem level_gate_spec (wfail : Nat → Option String) (dests : List LevelDest)
    (level : Level) (p : List Nat) (e : Nat × List Nat)
    (d0 : LevelDest) (rest : List LevelDest) :
    (e ∈ (mlwWriteLevel wfail dests level p ⟨[]⟩).1.received ↔
      ∃ d ∈ dests, d.w = some e.1 ∧ level ≥ d.min ∧ e.2 = p) ∧
    (e ∈ (mlwWrite wfail dests p ⟨[]⟩).1.received ↔
      ∃ d ∈ dests, d.w = some e.1 ∧ e.2 = p) ∧
    (∀ d ∈ d0 :: rest, gateLevel d0 rest ≤ d.min) ∧
    (∃ d ∈ d0 :: rest, gateLevel d0 rest = d.min) := by
  have hg := foldl_minStep_spec rest d0.min
  refine ⟨?_, ?_, ?_, ?_⟩
  · rw [mlwWriteLevel]
    simp only []
    rw [foldl_level_received]
    simp
  · rw [mlwWrite]
    simp only []
    rw [foldl_write_received]
    simp
  · intro d hd
    rcases List.mem_cons.mp hd with rfl | hd
    · exact hg.1
    · exact hg.2.1 d hd
  · rcases hg.2.2 with heq | ⟨d, hd, heq⟩
    · exact ⟨d0, List.mem_cons_self _ _, heq⟩
    · exact ⟨d, List.mem_cons_of_mem _ hd, heq⟩

/-- C6: both fan-out writers return the full length and a nil error no
matter what any destination write returns, the outcome is independent of
which destinations fail, and every destination with a writer is attempted
(for WriteLevel, every destination passing the level gate). -/
theorem error_swallow_spec (wfail wfail2 : Nat → Option String)
    (dests : List LevelDest) (level : Level) (p : List Nat) (st : MWState) :
    (mlwWrite wfail dests p st).2 = (p.length, none) ∧
    (mlwWriteLevel wfail dests level p st).2 = (p.length, none) ∧
    mlwWrite wfail dests p st = mlwWrite wfail2 dests p st ∧
    mlwWriteLevel wfail dests level p st = mlwWriteLevel wfail2 dests level p st ∧
    (∀ d ∈ dests, ∀ wid, d.w = some wid →
      (wid, p) ∈ (mlwWrite wfail dests p ⟨[]⟩).1.received) ∧
    (∀ d ∈ dests, ∀ wid, d.w = some wid → level ≥ d.min →
      (wid, p) ∈ (mlwWriteLevel wfail dests level p ⟨[]⟩).1.received) := by
  refine ⟨rfl, rfl, rfl, rfl, ?_, ?_⟩
  · intro d hd wid hw
    rw [mlwWrite]
    simp only []
    rw [foldl_write_received]
    exact Or.inr ⟨d, hd, by simp [hw]⟩
  · intro d hd wid hw hge
    rw [mlwWriteLevel]
    simp only []
    rw [foldl_level_received]
    exact Or.inr ⟨d, hd, by simp [hw, hge]⟩

theorem fatalExitCode_default (args : List LogArg)
    (h : ∀ fe, LogArg.fatalErr fe ∈ args → fe.code = 0) :
    fatalExitCode args = 1 := by
  induction args with
  | nil => rfl
  | cons a rest ih =>
    have hrest : ∀ fe, LogArg.fatalErr fe ∈ rest → fe.code = 0 :=
      fun fe hfe => h fe (List.mem_cons_of_mem _ hfe)
    cases a with
    | fatalErr fe =>
        have h0 : fe.code = 0 := h fe (List.mem_cons_self _ _)
        simp [fatalExitCode, h0, ih hrest]
    | str v => simpa [fatalExitCode] using ih hrest
    | err e => simpa [fatalExitCode] using ih hrest
    | fieldMap m => simpa [fatalExitCode] using ih hrest
    | stringer v => simpa [fatalExitCode] using ih hrest
    | structArg fs => simpa [fatalExitCode] using ih hrest
    | nilArg => simpa [fatalExitCode] using ih hrest
    | other v => simpa [fatalExitCode] using ih hrest

theorem fatalExitCode_first_nonzero (pre : List LogArg) (fe : FatalError)
    (post : List LogArg) (hc : fe.code ≠ 0)
    (h : ∀ g, LogArg.fatalErr g ∈ pre → g.code = 0) :
    fatalExitCode (pre ++ LogArg.fatalErr fe :: post) = fe.code := by
  induction pre with
  | nil => simp [fatalExitCode, hc]
  | cons a pre ih =>
    have hpre : ∀ g, LogArg.fatalErr g ∈ pre → g.code = 0 :=
      fun g hg => h g (List.mem_cons_of_mem _ hg)
    cases a with
    | fatalErr g =>
        have h0 : g.code = 0 := h g (List.mem_cons_self _ _)
        simp [fatalExitCode, h0, ih hpre]
    | str v => simpa [fatalExitCode] using ih hpre
    | err e => simpa [fatalExitCode] using ih hpre
    | fieldMap m => simpa [fatalExitCode] using ih hpre
    | stringer v => simpa [fatalExitCode] using ih hpre
    | structArg fs => simpa [fatalExitCode] using ih hpre
    | nilArg => simpa [fatalExitCode] using ih hpre
    | other v => simpa [fatalExitCode] using ih hpre

/-- C5: the process exit code chosen by Fatal is 1 (the generic-failure
default) unless some argument is a FatalError with a non-zero Code, in
which case it is the Code of the first such argument. -/
theorem fatal_exit_code_spec (args : List LogArg) :
    ((∀ fe, LogArg.fatalErr fe ∈ args → fe.code = 0) → fatalExitCode args = 1) ∧
    (∀ pre fe post, args = pre ++ LogArg.fatalErr fe :: post → fe.code ≠ 0 →
      (∀ g, LogArg.fatalErr g ∈ pre → g.code = 0) →
      fatalExitCode args = fe.code) := by
  refine ⟨fatalExitCode_default args, ?_⟩
  intro pre fe post heq hc h
  rw [heq]
  exact fatalExitCode_first_nonzero pre fe post hc h

/-- C5 witness: Fatal with a message and a plain error exits with code 1,
and FatalCode 42 (which appends a FatalError with Code 42) exits with
code 42. -/
theorem fatal_exit_code_spec_witness :
    fatalExitCode [LogArg.str "boom", LogArg.err "x"] = 1 ∧
    fatalExitCode (fatalCodeArgs 42 [LogArg.str "boom"]) = 42 := by
  constructor
  · exact (fatal_exit_code_spec [LogArg.str "boom", LogArg.err "x"]).1
      (by intro fe hfe; simp at hfe)
  · exact (fatal_exit_code_spec (fatalCodeArgs 42 [LogArg.str "boom"])).2
      [LogArg.str "boom"] ⟨"", 42, ""⟩ [] rfl (by decide)
      (by intro g hg; simp at hg)

/-- C10: RotatingLogger.Rotate propagates an error of the underlying
rotation unchanged and then leaves the index and the current file name
untouched; only a successful rotation increments the index and rewrites
the file name to the next two-digit-indexed name in the same directory. -/
theorem rlRotate_atomic_on_error (st : RotatingLoggerState) (r : Option String) :
    (∀ e, r = some e → rlRotate r st = (some e, st)) ∧
    (r = none →
      (rlRotate r st).1 = none ∧
      (rlRotate r st).2.index = st.index + 1 ∧
      (rlRotate r st).2.lj.filename =
        joinPath (dirOf st.lj.filename) (rotatedName st.baseName (st.index + 1))) := by
  cases r with
  | some e =>
      constructor
      · intro f hf
        cases hf
        rfl
      · intro hn
        cases hn
  | none =>
      constructor
      · intro f hf
        cases hf
      · intro _
        exact ⟨rfl, rfl, rfl⟩

/-- C10 witness: on a concrete sink at index 0, a failed underlying
rotation returns the error with the state unchanged, and a successful one
moves to index 1 and file logs/svc_01.log. -/
theorem rlRotate_atomic_on_error_witness :
    rlRotate (some "disk full") ⟨⟨"logs/svc_00.log", 100, 0, 0⟩, "svc", 0⟩ =
      (some "disk full", ⟨⟨"logs/svc_00.log", 100, 0, 0⟩, "svc", 0⟩) ∧
    (rlRotate none ⟨⟨"logs/svc_00.log", 100, 0, 0⟩, "svc", 0⟩).1 = none ∧
    (rlRotate none ⟨⟨"logs/svc_00.log", 100, 0, 0⟩, "svc", 0⟩).2.index = 1 ∧
    (rlRotate none ⟨⟨"logs/svc_00.log", 100, 0, 0⟩, "svc", 0⟩).2.lj.filename =
      "logs/svc_01.log" := by
  have hs := rlRotate_atomic_on_error ⟨⟨"logs/svc_00.log", 100, 0, 0⟩, "svc", 0⟩
      (some "disk full")
  have hn := rlRotate_atomic_on_error ⟨⟨"logs/svc_00.log", 100, 0, 0⟩, "svc", 0⟩ none
  refine ⟨hs.1 "disk full" rfl, (hn.2 rfl).1, (hn.2 rfl).2.1, ?_⟩
  rw [(hn.2 rfl).2.2]
  decide

/-- C3: a write whose bytes cross the max-size threshold triggers one
internal rotation of the lumberjack collaborator, but the wrapper's
rotation index stays at 0 and the current file name is unchanged —
RotatingLogger.Write never invokes the wrapper's Rotate, so the indexed
file-name progression documented in the README does not happen.  Sink
configured at 1 MB, current size 1048570 bytes, incoming write 10 bytes. -/
theorem rotating_write_crossing_keeps_index :
    (rlWrite ⟨⟨"logs/svc_00.log", 1, 1048570, 0⟩, "svc", 0⟩ 10).1.lj.rotations = 1 ∧
    (rlWrite ⟨⟨"logs/svc_00.log", 1, 1048570, 0⟩, "svc", 0⟩ 10).1.index = 0 ∧
    (rlWrite ⟨⟨"logs/svc_00.log", 1, 1048570, 0⟩, "svc", 0⟩ 10).1.lj.filename =
      "logs/svc_00.log" ∧
    (rlWrite ⟨⟨"logs/svc_00.log", 1, 1048570, 0⟩, "svc", 0⟩ 10).2 = (10, none) := by
  decide

/-- C8 counterexample: a second direct call to InitLogging with file
output enabled is not a no-op — it replaces the singleton and creates a
second rotating sink. -/
theorem initLogging_twice_cex :
    initLogging ⟨true, true, infoLevel, infoLevel⟩
        (initLogging ⟨true, true, infoLevel, infoLevel⟩ ⟨none, 0, []⟩) ≠
      initLogging ⟨true, true, infoLevel, infoLevel⟩ ⟨none, 0, []⟩ ∧
    (initLogging ⟨true, true, infoLevel, infoLevel⟩
        (initLogging ⟨true, true, infoLevel, infoLevel⟩ ⟨none, 0, []⟩)).sinksCreated.length
      = 2 := by
  decide

/-- C8 amended: lazy initialization through ensure is idempotent — a
second ensure in sequence is a no-op against the existing singleton —
whereas each direct InitLogging call with file output enabled creates a
fresh rotating sink unconditionally. -/
theorem ensure_idempotent_spec (cfg : InitConfig) (s : GlobalState) :
    ensure cfg (ensure cfg s) = ensure cfg s ∧
    (cfg.fileEnabled = true →
      (initLogging cfg s).sinksCreated = s.sinksCreated ++ [s.nextSinkId]) := by
  constructor
  · cases h : s.appLogger with
    | none =>
        cases hf : cfg.fileEnabled <;> simp [ensure, initLogging, h, hf]
    | some l => simp [ensure, h]
  · intro hf
    simp [initLogging, hf]

/-- C8 witness: from a fresh process state, two ensure calls equal one,
and a direct InitLogging call records sink 0 as created. -/
theorem ensure_idempotent_spec_witness :
    ensure ⟨true, true, infoLevel, infoLevel⟩
        (ensure ⟨true, true, infoLevel, infoLevel⟩ ⟨none, 0, []⟩) =
      ensure ⟨true, true, infoLevel, infoLevel⟩ ⟨none, 0, []⟩ ∧
    (initLogging ⟨true, true, infoLevel, infoLevel⟩ ⟨none, 0, []⟩).sinksCreated =
      [] ++ [0] := by
  have h := ensure_idempotent_spec ⟨true, true, infoLevel, infoLevel⟩ ⟨none, 0, []⟩
  exact ⟨h.1, h.2 rfl⟩

theorem lookupLast_append_single (l : List (String × GoValue)) (k : String)
    (v : GoValue) : lookupLast (l ++ [(k, v)]) k = some v := by
  simp [lookupLast, List.reverse_append]

/-- C4 counterexample: a user field map binding the reserved key service
reaches the emitted record unfiltered; the record then carries both the
logger's entry and, later, the user's, so the last occurrence of the
reserved key is the user-supplied value, not the logger's. -/
theorem reserved_service_cex :
    (("service", GoValue.str "evil") ∈
      logEventRecord "svc" "production" "t0" infoLevel none
        [LogArg.str "login", LogArg.fieldMap [("service", GoValue.str "evil")]]) ∧
    lookupLast (logEventRecord "svc" "production" "t0" infoLevel none
        [LogArg.str "login", LogArg.fieldMap [("service", GoValue.str "evil")]])
      "service" = some (GoValue.str "evil") := by
  decide

/-- C4 amended: the logger always emits its own entries for the reserved
keys — level, time, service and env first in the record, the error and
the message after every user field — but it does not suppress
user-supplied fields with reserved names: those are appended after the
base fields as additional occurrences.  Hence the first occurrences of
level, time, service and env carry the logger's values, and the last
occurrences of msg and err carry the logger's message and error value. -/
theorem reserved_keys_spec (svc env tm : String) (level : Level)
    (caller : Option String) (args : List LogArg) :
    lookupFirst (logEventRecord svc env tm level caller args) "level" =
      some (GoValue.str (levelString level)) ∧
    lookupFirst (logEventRecord svc env tm level caller args) "time" =
      some (GoValue.str tm) ∧
    lookupFirst (logEventRecord svc env tm level caller args) "service" =
      some (GoValue.str svc) ∧
    lookupFirst (logEventRecord svc env tm level caller args) "env" =
      some (GoValue.str env) ∧
    ((processLogArgs args).message ≠ "" →
      lookupLast (logEventRecord svc env tm level caller args) "msg" =
        some (GoValue.str (processLogArgs args).message)) ∧
    (∀ e, (processLogArgs args).errVal = some e →
      lookupLast (logEventRecord svc env tm level caller args) "err" =
        some (GoValue.str e)) := by
  refine ⟨rfl, rfl, rfl, rfl, ?_, ?_⟩
  · intro h
    rw [logEventRecord, if_neg h]
    exact lookupLast_append_single _ _ _
  · intro e he
    rw [logEventRecord, he]
    rw [lookupLast_append]
    by_cases hm : (processLogArgs args).message = ""
    · rw [if_pos hm]
      rw [show optEntry "err" (some e) = [("err", GoValue.str e)] from rfl]
      rw [lookupLast_append_single]
      rfl
    · rw [if_neg hm]
      rw [show optEntry "err" (some e) = [("err", GoValue.str e)] from rfl]
      rw [lookupLast_append_single]
      rfl

/-- C4 witness: on a concrete record with a message and an error, the
base keys read the logger's values first and the final msg and err
entries are the logger's. -/
theorem reserved_keys_spec_witness :
    lookupFirst (logEventRecord "svc" "production" "t0" infoLevel none
      [LogArg.str "login", LogArg.err "x"]) "service" = some (GoValue.str "svc") ∧
    (processLogArgs [LogArg.str "login", LogArg.err "x"]).message ≠ "" ∧
    lookupLast (logEventRecord "svc" "production" "t0" infoLevel none
      [LogArg.str "login", LogArg.err "x"]) "msg" = some (GoValue.str "login") ∧
    lookupLast (logEventRecord "svc" "production" "t0" infoLevel none
      [LogArg.str "login", LogArg.err "x"]) "err" = some (GoValue.str "x") := by
  have h := reserved_keys_spec "svc" "production" "t0" infoLevel none
      [LogArg.str "login", LogArg.err "x"]
  refine ⟨h.2.2.1, by decide, ?_, ?_⟩
  · have hm := h.2.2.2.2.1 (by decide)
    rw [hm]
    decide
  · exact h.2.2.2.2.2 "x" rfl

theorem mem_record_eq_corr (svc env tm : String) (ctx : Ctx) (level : Level)
    (caller : Option String) (args : List LogArg) (k : String) (v : GoValue)
    (hlv : k ≠ "level") (htm : k ≠ "time") (hsv : k ≠ "service")
    (hen : k ≠ "env") (hca : k ≠ "caller") (her : k ≠ "err") (hms : k ≠ "msg")
    (hfields : ∀ kv ∈ (processLogArgs args).fields, kv.1 ≠ k) :
    ((k, v) ∈ logEventCtxRecord svc env tm ctx level caller args ↔
      (k, v) ∈ correlationFields ctx) := by
  simp only [logEventCtxRecord, List.mem_append]
  constructor
  · intro hh
    rcases hh with ((((hb | hc) | hcal) | hf) | he) | hm
    · exfalso
      simp only [baseFields, List.mem_cons, List.mem_nil_iff, or_false,
        Prod.ext_iff] at hb
      rcases hb with h | h | h | h
      · exact hlv h.1
      · exact htm h.1
      · exact hsv h.1
      · exact hen h.1
    · exact hc
    · exfalso
      cases caller with
      | none => simp [optEntry] at hcal
      | some c =>
          simp only [optEntry, List.mem_singleton, Prod.ext_iff] at hcal
          exact hca hcal.1
    · exact absurd rfl (hfields (k, v) hf)
    · exfalso
      cases hev : (processLogArgs args).errVal with
      | none => rw [hev] at he; simp [optEntry] at he
      | some e =>
          rw [hev] at he
          simp only [optEntry, List.mem_singleton, Prod.ext_iff] at he
          exact her he.1
    · exfalso
      by_cases hmm : (processLogArgs args).message = ""
      · rw [if_pos hmm] at hm; simp at hm
      · rw [if_neg hmm] at hm
        simp only [List.mem_singleton, Prod.ext_iff] at hm
        exact hms hm.1
  · intro hc
    exact Or.inl (Or.inl (Or.inl (Or.inl (Or.inr hc))))

theorem mem_corr_request (ctx : Ctx) (v : GoValue) :
    (("request_id", v) ∈ correlationFields ctx ↔
      ∃ s, ctx.requestID = some (GoAny.str s) ∧ s ≠ "" ∧ v = GoValue.str s) := by
  rcases ctx with ⟨rq, tr, sp⟩
  simp only [correlationFields, List.mem_append]
  constructor
  · intro hh
    rcases hh with (h | h) | h
    · by_cases hre : assertString rq ≠ ""
      · rw [if_pos hre] at h
        simp only [List.mem_singleton, Prod.ext_iff] at h
        cases hrq : rq with
        | none => rw [hrq] at hre; simp [assertString] at hre
        | some g =>
            cases g with
            | str s =>
                refine ⟨s, rfl, ?_, ?_⟩
                · rw [hrq] at hre; simpa [assertString] using hre
                · rw [hrq] at h; simpa [assertString] using h.2
            | nonString => rw [hrq] at hre; simp [assertString] at hre
      · rw [if_neg hre] at h; simp at h
    · exfalso
      by_cases htr : assertString tr ≠ ""
      · rw [if_pos htr] at h
        simp only [List.mem_singleton, Prod.ext_iff] at h
        exact absurd h.1 (by decide)
      · rw [if_neg htr] at h; simp at h
    · exfalso
      by_cases hsp : assertString sp ≠ ""
      · rw [if_pos hsp] at h
        simp only [List.mem_singleton, Prod.ext_iff] at h
        exact absurd h.1 (by decide)
      · rw [if_neg hsp] at h; simp at h
  · intro hh
    rcases hh with ⟨s, hrq, hs, hv⟩
    refine Or.inl (Or.inl ?_)
    rw [hrq]
    rw [show assertString (some (GoAny.str s)) = s from rfl]
    rw [if_pos hs]
    simp [hv]

theorem mem_corr_trace (ctx : Ctx) (v : GoValue) :
    (("trace_id", v) ∈ correlationFields ctx ↔
      ∃ s, ctx.traceID = some (GoAny.str s) ∧ s ≠ "" ∧ v = GoValue.str s) := by
  rcases ctx with ⟨rq, tr, sp⟩
  simp only [correlationFields, List.mem_append]
  constructor
  · intro hh
    rcases hh with (h | h) | h
    · exfalso
      by_cases hre : assertString rq ≠ ""
      · rw [if_pos hre] at h
        simp only [List.mem_singleton, Prod.ext_iff] at h
        exact absurd h.1 (by decide)
      · rw [if_neg hre] at h; simp at h
    · by_cases htr : assertString tr ≠ ""
      · rw [if_pos htr] at h
        simp only [List.mem_singleton, Prod.ext_iff] at h
        cases htq : tr with
        | none => rw [htq] at htr; simp [assertString] at htr
        | some g =>
            cases g with
            | str s =>
                refine ⟨s, rfl, ?_, ?_⟩
                · rw [htq] at htr; simpa [assertString] using htr
                · rw [htq] at h; simpa [assertString] using h.2
            | nonString => rw [htq] at htr; simp [assertString] at htr
      · rw [if_neg htr] at h; simp at h
    · exfalso
      by_cases hsp : assertString sp ≠ ""
      · rw [if_pos hsp] at h
        simp only [List.mem_singleton, Prod.ext_iff] at h
        exact absurd h.1 (by decide)
      · rw [if_neg hsp] at h; simp at h
  · intro hh
    rcases hh with ⟨s, htq, hs, hv⟩
    refine Or.inl (Or.inr ?_)
    rw [htq]
    rw [show assertString (some (GoAny.str s)) = s from rfl]
    rw [if_pos hs]
    simp [hv]

theorem mem_corr_span (ctx : Ctx) (v : GoValue) :
    (("span_id", v) ∈ correlationFields ctx ↔
      ∃ s, ctx.spanID = some (GoAny.str s) ∧ s ≠ "" ∧ v = GoValue.str s) := by
  rcases ctx with ⟨rq, tr, sp⟩
  simp only [correlationFields, List.mem_append]
  constructor
  · intro hh
    rcases hh with (h | h) | h
    · exfalso
      by_cases hre : assertString rq ≠ ""
      · rw [if_pos hre] at h
        simp only [List.mem_singleton, Prod.ext_iff] at h
        exact absurd h.1 (by decide)
      · rw [if_neg hre] at h; simp at h
    · exfalso
      by_cases htr : assertString tr ≠ ""
      · rw [if_pos htr] at h
        simp only [List.mem_singleton, Prod.ext_iff] at h
        exact absurd h.1 (by decide)
      · rw [if_neg htr] at h; simp at h
    · by_cases hsp : assertString sp ≠ ""
      · rw [if_pos hsp] at h
        simp only [List.mem_singleton, Prod.ext_iff] at h
        cases hsq : sp with
        | none => rw [hsq] at hsp; simp [assertString] at hsp
        | some g =>
            cases g with
            | str s =>
                refine ⟨s, rfl, ?_, ?_⟩
                · rw [hsq] at hsp; simpa [assertString] using hsp
                · rw [hsq] at h; simpa [assertString] using h.2
            | nonString => rw [hsq] at hsp; simp [assertString] at hsp
      · rw [if_neg hsp] at h; simp at h
  · intro hh
    rcases hh with ⟨s, hsq, hs, hv⟩
    refine Or.inr ?_
    rw [hsq]
    rw [show assertString (some (GoAny.str s)) = s from rfl]
    rw [if_pos hs]
    simp [hv]

/-- C7: in a record emitted by a Ctx logging variant (whose user fields do
not themselves use the three correlation names), each correlation
identifier appears, with its string value, exactly when the context
carries a non-empty string for it; unset, non-string or empty values are
omitted entirely. -/
theorem ctx_correlation_spec (svc env tm : String) (ctx : Ctx) (level : Level)
    (caller : Option String) (args : List LogArg)
    (h : ∀ kv ∈ (processLogArgs args).fields,
        kv.1 ≠ "request_id" ∧ kv.1 ≠ "trace_id" ∧ kv.1 ≠ "span_id") :
    (∀ v, (("request_id", v) ∈ logEventCtxRecord svc env tm ctx level caller args ↔
        ∃ s, ctx.requestID = some (GoAny.str s) ∧ s ≠ "" ∧ v = GoValue.str s)) ∧
    (∀ v, (("trace_id", v) ∈ logEventCtxRecord svc env tm ctx level caller args ↔
        ∃ s, ctx.traceID = some (GoAny.str s) ∧ s ≠ "" ∧ v = GoValue.str s)) ∧
    (∀ v, (("span_id", v) ∈ logEventCtxRecord svc env tm ctx level caller args ↔
        ∃ s, ctx.spanID = some (GoAny.str s) ∧ s ≠ "" ∧ v = GoValue.str s)) := by
  refine ⟨fun v => ?_, fun v => ?_, fun v => ?_⟩
  · rw [mem_record_eq_corr svc env tm ctx level caller args "request_id" v
      (by decide) (by decide) (by decide) (by decide) (by decide) (by decide)
      (by decide) (fun kv hkv => (h kv hkv).1)]
    exact mem_corr_request ctx v
  · rw [mem_record_eq_corr svc env tm ctx level caller args "trace_id" v
      (by decide) (by decide) (by decide) (by decide) (by decide) (by decide)
      (by decide) (fun kv hkv => (h kv hkv).2.1)]
    exact mem_corr_trace ctx v
  · rw [mem_record_eq_corr svc env tm ctx level caller args "span_id" v
      (by decide) (by decide) (by decide) (by decide) (by decide) (by decide)
      (by decide) (fun kv hkv => (h kv hkv).2.2)]
    exact mem_corr_span ctx v

/-- C7 witness: a context carrying trace id tr-1 and request id req-2 but
no span id produces, via the context-aware info call, a record containing
both identifiers and no span_id at all. -/
theorem ctx_correlation_spec_witness :
    (∀ kv ∈ (processLogArgs [LogArg.str "login"]).fields,
        kv.1 ≠ "request_id" ∧ kv.1 ≠ "trace_id" ∧ kv.1 ≠ "span_id") ∧
    ("request_id", GoValue.str "req-2") ∈
      logEventCtxRecord "svc" "production" "t0"
        ⟨some (GoAny.str "req-2"), some (GoAny.str "tr-1"), none⟩ infoLevel none
        [LogArg.str "login"] ∧
    ("trace_id", GoValue.str "tr-1") ∈
      logEventCtxRecord "svc" "production" "t0"
        ⟨some (GoAny.str "req-2"), some (GoAny.str "tr-1"), none⟩ infoLevel none
        [LogArg.str "login"] ∧
    (∀ v, ("span_id", v) ∉
      logEventCtxRecord "svc" "production" "t0"
        ⟨some (GoAny.str "req-2"), some (GoAny.str "tr-1"), none⟩ infoLevel none
        [LogArg.str "login"]) := by
  have h := ctx_correlation_spec "svc" "production" "t0"
      ⟨some (GoAny.str "req-2"), some (GoAny.str "tr-1"), none⟩ infoLevel none
      [LogArg.str "login"] (by decide)
  refine ⟨by decide, ?_, ?_, ?_⟩
  · exact (h.1 (GoValue.str "req-2")).mpr ⟨"req-2", rfl, by decide, rfl⟩
  · exact (h.2.1 (GoValue.str "tr-1")).mpr ⟨"tr-1", rfl, by decide, rfl⟩
  · intro v hv
    rcases (h.2.2 v).mp hv with ⟨s, hs, _, _⟩
    cases hs

end PreZeroLog
